import Mathlib

/- Shallow embedding of the rpc load balancer:
   the round-robin rate-limited scheduler (src/algorithms/round_robin.rs)
   and the retry / forwarding / handler pipeline (src/handlers/load_balancer.rs).
   Machine integers (u32 counters, usize cursor) are modelled as Nat; the only
   subtraction performed by the code is a decrement guarded by a positivity
   test, so no wrap-around is reachable. -/

/-- One upstream RPC endpoint: `RpcServer` from src/algorithms/round_robin.rs
    (fields url, current_limit, request_limit, in source order). -/
structure RpcServer where
  url : String
  current_limit : Nat
  request_limit : Nat
deriving DecidableEq

/-- The per-chain scheduler: `RoundRobin` from src/algorithms/round_robin.rs.
    The Arc of Mutexes is modelled as a plain list of servers; the AtomicUsize
    cursor as a Nat. -/
structure RoundRobin where
  urls : List RpcServer
  index : Nat
deriving DecidableEq

/-- The probing loop inside `RoundRobin::get_next`: at most `fuel` iterations
    (the source runs `for _ in 0..len`); each iteration reads position
    `index % len`, and on a positive counter decrements it and returns the url
    without touching the cursor, otherwise stores `(i + 1) % len` and loops. -/
def getNextLoop : RoundRobin → Nat → Option String × RoundRobin
  | rr, 0 => (none, rr)
  | rr, fuel + 1 =>
    match rr.urls[rr.index % rr.urls.length]? with
    | none => (none, rr)
    | some server =>
      if 0 < server.current_limit then
        (some server.url,
          ⟨rr.urls.set (rr.index % rr.urls.length)
             { server with current_limit := server.current_limit - 1 },
           rr.index⟩)
      else
        getNextLoop ⟨rr.urls, (rr.index % rr.urls.length + 1) % rr.urls.length⟩ fuel

/-- `RoundRobin::get_next`: probe up to `len(urls)` positions starting at the
    cursor. -/
def get_next (rr : RoundRobin) : Option String × RoundRobin :=
  getNextLoop rr rr.urls.length

/-- `RoundRobin::retry_connection`: store `(index + 1) % len` and then call
    `get_next` (the source returns that pick, which its only caller discards). -/
def retry_connection (rr : RoundRobin) : Option String × RoundRobin :=
  get_next ⟨rr.urls, (rr.index + 1) % rr.urls.length⟩

/-- One tick of `RoundRobin::refill_limits`: the body of the refill loop sets
    `current_limit := request_limit` on every server (the enclosing loop and
    sleep are the ticker task). -/
def refill_limits (rr : RoundRobin) : RoundRobin :=
  ⟨rr.urls.map (fun s => { s with current_limit := s.request_limit }), rr.index⟩

/-- Convenience: the current_limit stored at position `p`, 0 when out of range. -/
def limitAt (urls : List RpcServer) (p : Nat) : Nat :=
  match urls[p]? with
  | some s => s.current_limit
  | none => 0

/-- One scheduler operation, for stating state-machine invariants. -/
inductive SchedOp
  | pick
  | rotate
  | refill

/-- Apply one scheduler operation to a scheduler state. -/
def applyOp (rr : RoundRobin) : SchedOp → RoundRobin
  | SchedOp.pick => (get_next rr).2
  | SchedOp.rotate => (retry_connection rr).2
  | SchedOp.refill => refill_limits rr

/-- Apply a sequence of scheduler operations, oldest first. -/
def applyOps (rr : RoundRobin) (ops : List SchedOp) : RoundRobin :=
  ops.foldl applyOp rr

/-- The token-bucket invariant: every upstream holds at most its quota. -/
def LimitInv (rr : RoundRobin) : Prop :=
  ∀ s ∈ rr.urls, s.current_limit ≤ s.request_limit

instance (rr : RoundRobin) : Decidable (LimitInv rr) := by
  unfold LimitInv
  infer_instance

/-- Iterate `get_next` `n` times, collecting the returned options in order. -/
def pickN : RoundRobin → Nat → List (Option String) × RoundRobin
  | rr, 0 => ([], rr)
  | rr, n + 1 =>
    ((get_next rr).1 :: (pickN (get_next rr).2 n).1, (pickN (get_next rr).2 n).2)

/-- An upstream HTTP response as seen by the retry controller (reqwest
    Response: status code and body bytes). -/
structure UpstreamResponse where
  status : Nat
  body : String
deriving DecidableEq

/-- reqwest StatusCode::is_success: the 2xx range. -/
def is_success (status : Nat) : Bool := 200 ≤ status && status < 300

/-- Observable trace of one `retry_with_backoff` run: the value returned,
    the scheduler state left behind, the number of loop iterations, the number
    of outbound requests actually issued, and the backoff sleeps (ms) in order. -/
structure RetryTrace where
  response : Option UpstreamResponse
  final : RoundRobin
  attempts : Nat
  forwards : Nat
  sleeps : List Nat
deriving DecidableEq

/-- `base_delay` in `retry_with_backoff`: Duration::from_millis(100). -/
def base_delay : Nat := 100

/-- Outcome of one iteration of the retry loop, given the pick result and the
    transport oracle `net` (attempt index and url to transport outcome):
    the source returns the response only when send succeeded and the status is
    2xx; a missing url, a transport error, or a non-2xx status all fall through
    to the failure path. -/
def attemptOutcome (net : Nat → String → Option UpstreamResponse) (retries : Nat)
    (uri : Option String) : Option UpstreamResponse :=
  match uri with
  | some u =>
    match net retries u with
    | some res => if is_success res.status then some res else none
    | none => none
  | none => none

/-- One outbound request is issued exactly when `get_forward_request` produced
    a builder, i.e. when the pick returned a url. -/
def sentCount (uri : Option String) : Nat := if uri.isSome then 1 else 0

/-- The while loop of `retry_with_backoff`, with `fuel = max_retries - retries`
    iterations remaining. Each iteration picks via `get_next`, evaluates the
    attempt, and on failure calls `retry_connection`, increments `retries`, and
    sleeps `base_delay * 2 ^ retries` if `retries < max_retries`. -/
def retryLoop (net : Nat → String → Option UpstreamResponse) (max_retries : Nat) :
    Nat → Nat → RoundRobin → RetryTrace
  | 0, _, rr => ⟨none, rr, 0, 0, []⟩
  | fuel + 1, retries, rr =>
    match attemptOutcome net retries (get_next rr).1 with
    | some res => ⟨some res, (get_next rr).2, 1, sentCount (get_next rr).1, []⟩
    | none =>
      let rest := retryLoop net max_retries fuel (retries + 1) (retry_connection (get_next rr).2).2
      ⟨rest.response, rest.final, rest.attempts + 1, rest.forwards + sentCount (get_next rr).1,
        if retries + 1 < max_retries then base_delay * 2 ^ (retries + 1) :: rest.sleeps
        else rest.sleeps⟩

/-- `retry_with_backoff` from src/handlers/load_balancer.rs: the retry budget
    `max_retries` is read from the scheduler as `urls.len()`. -/
def retry_with_backoff (net : Nat → String → Option UpstreamResponse)
    (rr : RoundRobin) : RetryTrace :=
  retryLoop net rr.urls.length rr.urls.length 0 rr

/-- A response written by the handler: status, the Content-Type header it sets,
    and the body. -/
structure HttpResponse where
  status : Nat
  contentType : String
  body : String
deriving DecidableEq

/-- Observable outcome of one `load_balancer` handler invocation: the response,
    the registry after the request (schedulers are mutated in place through the
    shared Arc), outbound requests issued, and backoff sleeps performed. -/
structure HandlerResult where
  response : HttpResponse
  chains : List (String × RoundRobin)
  forwards : Nat
  sleeps : List Nat
deriving DecidableEq

/-- Replace the scheduler stored under `name`, modelling the in-place mutation
    of the shared scheduler during the request. -/
def setChain : List (String × RoundRobin) → String → RoundRobin → List (String × RoundRobin)
  | [], _, _ => []
  | (k, v) :: rest, name, rr =>
    if k = name then (k, rr) :: rest else (k, v) :: setChain rest name rr

/-- The `load_balancer` handler from src/handlers/load_balancer.rs: resolve the
    chain (400 "Invalid chain: <name>" when absent), read the body (400 on read
    failure, modelled as `body_bytes = none`), run `retry_with_backoff`, and
    shape the response: on Some pass the upstream status and body through with
    Content-Type application/json, on None answer 503 with the source's literal
    body string. -/
def load_balancer (chains : List (String × RoundRobin)) (chain : String)
    (body_bytes : Option String) (net : Nat → String → Option UpstreamResponse) :
    HandlerResult :=
  match List.lookup chain chains with
  | none =>
    ⟨⟨400, "application/json", "Invalid chain: " ++ chain⟩, chains, 0, []⟩
  | some rr =>
    match body_bytes with
    | none =>
      ⟨⟨400, "application/json", "Failed to read request body"⟩, chains, 0, []⟩
    | some _ =>
      let t := retry_with_backoff net rr
      match t.response with
      | some res =>
        ⟨⟨res.status, "application/json", res.body⟩, setChain chains chain t.final,
          t.forwards, t.sleeps⟩
      | none =>
        ⟨⟨503, "application/json", "No Avaialble RPC Urls"⟩, setChain chains chain t.final,
          t.forwards, t.sleeps⟩

/- Sanity checks reproducing the repository's own unit test `test_get_next`
   (two servers, limits 1/1): first pick returns the first url and leaves the
   cursor at 0, second pick returns the second url with cursor 1, third and
   fourth picks return none with cursor back at 1. -/

example :
    get_next ⟨[⟨"a", 1, 1⟩, ⟨"b", 1, 1⟩], 0⟩
      = (some "a", ⟨[⟨"a", 0, 1⟩, ⟨"b", 1, 1⟩], 0⟩) := by decide

example :
    get_next ⟨[⟨"a", 0, 1⟩, ⟨"b", 1, 1⟩], 0⟩
      = (some "b", ⟨[⟨"a", 0, 1⟩, ⟨"b", 0, 1⟩], 1⟩) := by decide

example :
    get_next ⟨[⟨"a", 0, 1⟩, ⟨"b", 0, 1⟩], 1⟩
      = (none, ⟨[⟨"a", 0, 1⟩, ⟨"b", 0, 1⟩], 1⟩) := by decide

/- Helper lemmas about the probing loop. -/

theorem getElem?_append_cons (A B : List RpcServer) (u : RpcServer) :
    (A ++ u :: B)[A.length]? = some u := by
  induction A with
  | nil => simp
  | cons a A ih => simpa using ih

theorem set_append_cons (A B : List RpcServer) (u v : RpcServer) :
    (A ++ u :: B).set A.length v = A ++ v :: B := by
  induction A with
  | nil => rfl
  | cons a A ih => simp [List.set_cons_succ, ih]

theorem getNextLoop_step_pos (urls : List RpcServer) (idx fuel : Nat) (server : RpcServer)
    (hs : urls[idx % urls.length]? = some server) (hpos : 0 < server.current_limit) :
    getNextLoop ⟨urls, idx⟩ (fuel + 1)
      = (some server.url,
         ⟨urls.set (idx % urls.length)
            { server with current_limit := server.current_limit - 1 },
          idx⟩) := by
  simp only [getNextLoop, hs, hpos, if_pos]

theorem getNextLoop_step_zero (urls : List RpcServer) (idx fuel : Nat) (server : RpcServer)
    (hs : urls[idx % urls.length]? = some server) (h0 : server.current_limit = 0) :
    getNextLoop ⟨urls, idx⟩ (fuel + 1)
      = getNextLoop ⟨urls, (idx + 1) % urls.length⟩ fuel := by
  simp only [getNextLoop, hs, h0, Nat.mod_add_mod]
  simp

theorem getNextLoop_all_zero (urls : List RpcServer) (hne : urls ≠ [])
    (hz : ∀ s ∈ urls, s.current_limit = 0) :
    ∀ (fuel idx : Nat),
      getNextLoop ⟨urls, idx⟩ (fuel + 1)
        = (none, ⟨urls, (idx + (fuel + 1)) % urls.length⟩) := by
  have hlen : 0 < urls.length := List.length_pos.mpr hne
  intro fuel
  induction fuel with
  | zero =>
    intro idx
    have hi : idx % urls.length < urls.length := Nat.mod_lt _ hlen
    have hs : urls[idx % urls.length]? = some (urls[idx % urls.length]) :=
      List.getElem?_eq_getElem hi
    have hz0 : (urls[idx % urls.length]).current_limit = 0 :=
      hz _ (List.getElem?_mem hs)
    rw [getNextLoop_step_zero urls idx 0 _ hs hz0]
    simp [getNextLoop]
  | succ fuel ih =>
    intro idx
    have hi : idx % urls.length < urls.length := Nat.mod_lt _ hlen
    have hs : urls[idx % urls.length]? = some (urls[idx % urls.length]) :=
      List.getElem?_eq_getElem hi
    have hz0 : (urls[idx % urls.length]).current_limit = 0 :=
      hz _ (List.getElem?_mem hs)
    rw [getNextLoop_step_zero urls idx (fuel + 1) _ hs hz0, ih ((idx + 1) % urls.length)]
    have harith : ((idx + 1) % urls.length + (fuel + 1)) % urls.length
        = (idx + (fuel + 1 + 1)) % urls.length := by
      rw [Nat.mod_add_mod]
      congr 1
      omega
    rw [harith]

theorem getNextLoop_first_pos :
    ∀ (j fuel idx : Nat) (urls : List RpcServer) (server : RpcServer),
      idx < urls.length → j < fuel →
      (∀ jp, jp < j → limitAt urls ((idx + jp) % urls.length) = 0) →
      urls[(idx + j) % urls.length]? = some server →
      0 < server.current_limit →
      getNextLoop ⟨urls, idx⟩ fuel
        = (some server.url,
           ⟨urls.set ((idx + j) % urls.length)
              { server with current_limit := server.current_limit - 1 },
            (idx + j) % urls.length⟩) := by
  intro j
  induction j with
  | zero =>
    intro fuel idx urls server hidx hfuel _ hget hpos
    obtain ⟨f, rfl⟩ : ∃ f, fuel = f + 1 := ⟨fuel - 1, by omega⟩
    have hmod2 : idx % urls.length = idx := Nat.mod_eq_of_lt hidx
    have hmod : (idx + 0) % urls.length = idx % urls.length := by simp
    rw [hmod, hmod2] at hget ⊢
    rw [getNextLoop_step_pos urls idx f server (by rw [hmod2]; exact hget) hpos, hmod2]
  | succ j ih =>
    intro fuel idx urls server hidx hfuel hz hget hpos
    obtain ⟨f, rfl⟩ : ∃ f, fuel = f + 1 := ⟨fuel - 1, by omega⟩
    have hlen : 0 < urls.length := by omega
    have hmod2 : idx % urls.length = idx := Nat.mod_eq_of_lt hidx
    have h0 : limitAt urls idx = 0 := by
      have h := hz 0 (Nat.succ_pos j)
      rwa [Nat.add_zero, hmod2] at h
    have hs0 : urls[idx % urls.length]? = some (urls[idx]) := by
      rw [hmod2]
      exact List.getElem?_eq_getElem hidx
    have hs0z : (urls[idx]).current_limit = 0 := by
      unfold limitAt at h0
      rw [hmod2] at hs0
      rw [hs0] at h0
      exact h0
    rw [getNextLoop_step_zero urls idx f (urls[idx])
      (by rw [hmod2]; exact List.getElem?_eq_getElem hidx) hs0z]
    have hkey : ∀ m : Nat, ((idx + 1) % urls.length + m) % urls.length
        = (idx + (m + 1)) % urls.length := by
      intro m
      rw [Nat.mod_add_mod]
      congr 1
      omega
    have hidx1 : (idx + 1) % urls.length < urls.length := Nat.mod_lt _ hlen
    have hz1 : ∀ jp, jp < j →
        limitAt urls (((idx + 1) % urls.length + jp) % urls.length) = 0 := by
      intro jp hjp
      rw [hkey jp]
      exact hz (jp + 1) (by omega)
    have hget1 : urls[((idx + 1) % urls.length + j) % urls.length]? = some server := by
      rw [hkey j]
      exact hget
    have hres := ih f ((idx + 1) % urls.length) urls server hidx1 (by omega) hz1 hget1 hpos
    rw [hres, hkey j]

theorem get_next_all_zero (urls : List RpcServer) (idx : Nat) (hne : urls ≠ [])
    (hz : ∀ s ∈ urls, s.current_limit = 0) :
    get_next ⟨urls, idx⟩ = (none, ⟨urls, idx % urls.length⟩) := by
  obtain ⟨f, hf⟩ : ∃ f, urls.length = f + 1 :=
    ⟨urls.length - 1, by have := List.length_pos.mpr hne; omega⟩
  have h1 := getNextLoop_all_zero urls hne hz f idx
  rw [← hf] at h1
  show getNextLoop ⟨urls, idx⟩ urls.length = (none, ⟨urls, idx % urls.length⟩)
  rw [h1, Nat.add_mod_right]

theorem get_next_first_pos (urls : List RpcServer) (idx j : Nat) (server : RpcServer)
    (hidx : idx < urls.length) (hj : j < urls.length)
    (hz : ∀ jp, jp < j → limitAt urls ((idx + jp) % urls.length) = 0)
    (hget : urls[(idx + j) % urls.length]? = some server)
    (hpos : 0 < server.current_limit) :
    get_next ⟨urls, idx⟩
      = (some server.url,
         ⟨urls.set ((idx + j) % urls.length)
            { server with current_limit := server.current_limit - 1 },
          (idx + j) % urls.length⟩) := by
  show getNextLoop ⟨urls, idx⟩ urls.length = _
  exact getNextLoop_first_pos j urls.length idx urls server hidx hj hz hget hpos

theorem get_next_isSome_of_pos (urls : List RpcServer) (idx : Nat)
    (hidx : idx < urls.length)
    (s : RpcServer) (hmem : s ∈ urls) (hpos : 0 < s.current_limit) :
    ((get_next ⟨urls, idx⟩).1).isSome = true := by
  have hlen : 0 < urls.length := by omega
  obtain ⟨p, hp, hpe⟩ : ∃ p, ∃ h : p < urls.length, urls[p] = s :=
    List.mem_iff_getElem.mp hmem
  have hwit : 0 < limitAt urls ((idx + (urls.length + p - idx) % urls.length) % urls.length) := by
    have hposn : (idx + (urls.length + p - idx) % urls.length) % urls.length = p := by
      rw [Nat.add_mod_mod]
      rw [show idx + (urls.length + p - idx) = urls.length + p from by omega]
      rw [Nat.add_mod_left]
      exact Nat.mod_eq_of_lt hp
    rw [hposn]
    unfold limitAt
    rw [List.getElem?_eq_getElem hp, hpe]
    exact hpos
  have hexists : ∃ jj, 0 < limitAt urls ((idx + jj) % urls.length) :=
    ⟨(urls.length + p - idx) % urls.length, hwit⟩
  have hj0 : 0 < limitAt urls ((idx + Nat.find hexists) % urls.length) :=
    Nat.find_spec hexists
  have hj0min : ∀ m, m < Nat.find hexists →
      limitAt urls ((idx + m) % urls.length) = 0 := by
    intro m hm
    have := Nat.find_min hexists hm
    omega
  have hj0lt : Nat.find hexists < urls.length := by
    have h1 : Nat.find hexists ≤ (urls.length + p - idx) % urls.length :=
      Nat.find_min' hexists hwit
    have h2 : (urls.length + p - idx) % urls.length < urls.length := Nat.mod_lt _ hlen
    omega
  have hlt : (idx + Nat.find hexists) % urls.length < urls.length := Nat.mod_lt _ hlen
  have hserver : urls[(idx + Nat.find hexists) % urls.length]?
      = some (urls[(idx + Nat.find hexists) % urls.length]) :=
    List.getElem?_eq_getElem hlt
  have hsvpos : 0 < (urls[(idx + Nat.find hexists) % urls.length]).current_limit := by
    unfold limitAt at hj0
    rw [hserver] at hj0
    exact hj0
  rw [get_next_first_pos urls idx (Nat.find hexists) _ hidx hj0lt hj0min hserver hsvpos]
  rfl

theorem get_next_none_all_zero (urls : List RpcServer) (idx : Nat)
    (hidx : idx < urls.length) (hnone : (get_next ⟨urls, idx⟩).1 = none) :
    ∀ s ∈ urls, s.current_limit = 0 := by
  intro s hs
  by_contra h
  have hpos : 0 < s.current_limit := by omega
  have hsome := get_next_isSome_of_pos urls idx hidx s hs hpos
  rw [hnone] at hsome
  simp at hsome

/-- Claim C1: on a scheduler at rest (cursor within bounds), `get_next` probes
    at most `len(upstreams)` positions starting at the cursor; at the first
    probed position holding a positive counter it decrements that counter by
    exactly one and returns that upstream's url, leaving the cursor at that
    position (the zero positions probed before it each advanced the cursor to
    `(i + 1) mod len`, and the successful probe does not advance it); if every
    upstream's counter is zero it returns none. -/
theorem c1_pick_first_available (rr : RoundRobin) (hidx : rr.index < rr.urls.length) :
    (∀ j server, j < rr.urls.length →
        (∀ jp, jp < j → limitAt rr.urls ((rr.index + jp) % rr.urls.length) = 0) →
        rr.urls[(rr.index + j) % rr.urls.length]? = some server →
        0 < server.current_limit →
        get_next rr
          = (some server.url,
             ⟨rr.urls.set ((rr.index + j) % rr.urls.length)
                { server with current_limit := server.current_limit - 1 },
              (rr.index + j) % rr.urls.length⟩))
    ∧ ((∀ s ∈ rr.urls, s.current_limit = 0) → get_next rr = (none, rr)) := by
  obtain ⟨urls, idx⟩ := rr
  refine ⟨?_, ?_⟩
  · intro j server hj hz hget hpos
    exact get_next_first_pos urls idx j server hidx hj hz hget hpos
  · intro hz
    have hne : urls ≠ [] := by
      intro h
      subst h
      simp at hidx
    rw [get_next_all_zero urls idx hne hz, Nat.mod_eq_of_lt hidx]

/-- Witness for C1: on the scheduler with upstreams a (0 tokens) and b
    (2 tokens) and cursor 0, the pick skips a, decrements b, and leaves the
    cursor on b. -/
theorem c1_pick_first_available_witness :
    get_next ⟨[⟨"a", 0, 1⟩, ⟨"b", 2, 2⟩], 0⟩
      = (some "b", ⟨[⟨"a", 0, 1⟩, ⟨"b", 1, 2⟩], 1⟩) := by
  have h := (c1_pick_first_available ⟨[⟨"a", 0, 1⟩, ⟨"b", 2, 2⟩], 0⟩ (by decide)).1
      1 ⟨"b", 2, 2⟩ (by decide)
      (by
        intro jp hjp
        have hjp0 : jp = 0 := by omega
        subst hjp0
        decide)
      (by decide) (by decide)
  exact h.trans (by decide)

/-- Claim C10: whenever `get_next` returns none on a scheduler at rest, the
    scheduler is observably unchanged: the cursor wrapped around the full loop
    back to its initial value and no counter moved. -/
theorem c10_pick_none_frame (rr : RoundRobin) (hidx : rr.index < rr.urls.length)
    (hnone : (get_next rr).1 = none) : (get_next rr).2 = rr := by
  obtain ⟨urls, idx⟩ := rr
  have hz := get_next_none_all_zero urls idx hidx hnone
  have hne : urls ≠ [] := by
    intro h
    subst h
    simp at hidx
  rw [get_next_all_zero urls idx hne hz]
  simp [Nat.mod_eq_of_lt hidx]

/-- Witness for C10 at a concrete exhausted scheduler. -/
theorem c10_pick_none_frame_witness :
    (get_next ⟨[⟨"a", 0, 1⟩, ⟨"b", 0, 3⟩], 1⟩).2 = ⟨[⟨"a", 0, 1⟩, ⟨"b", 0, 3⟩], 1⟩ :=
  c10_pick_none_frame ⟨[⟨"a", 0, 1⟩, ⟨"b", 0, 3⟩], 1⟩ (by decide) (by decide)

/- Invariant preservation (claim C4). -/

theorem getNextLoop_inv (fuel : Nat) :
    ∀ (urls : List RpcServer) (idx : Nat),
      (∀ s ∈ urls, s.current_limit ≤ s.request_limit) →
      ∀ s ∈ (getNextLoop ⟨urls, idx⟩ fuel).2.urls, s.current_limit ≤ s.request_limit := by
  induction fuel with
  | zero =>
    intro urls idx h
    exact h
  | succ fuel ih =>
    intro urls idx h
    cases hs : urls[idx % urls.length]? with
    | none =>
      simp only [getNextLoop, hs]
      exact h
    | some server =>
      by_cases hpos : 0 < server.current_limit
      · simp only [getNextLoop, hs, if_pos hpos]
        intro s hsmem
        rcases List.mem_or_eq_of_mem_set hsmem with hmem | heq
        · exact h s hmem
        · subst heq
          have hq := h server (List.getElem?_mem hs)
          show server.current_limit - 1 ≤ server.request_limit
          omega
      · simp only [getNextLoop, hs, if_neg hpos]
        exact ih urls ((idx % urls.length + 1) % urls.length) h

theorem get_next_inv (rr : RoundRobin) (h : LimitInv rr) : LimitInv (get_next rr).2 := by
  obtain ⟨urls, idx⟩ := rr
  exact getNextLoop_inv urls.length urls idx h

theorem retry_connection_inv (rr : RoundRobin) (h : LimitInv rr) :
    LimitInv (retry_connection rr).2 := by
  obtain ⟨urls, idx⟩ := rr
  exact getNextLoop_inv urls.length urls ((idx + 1) % urls.length) h

theorem refill_limits_full (rr : RoundRobin) :
    ∀ s ∈ (refill_limits rr).urls, s.current_limit = s.request_limit := by
  intro s hs
  obtain ⟨t, _, rfl⟩ := List.mem_map.mp hs
  rfl

theorem refill_limits_inv (rr : RoundRobin) : LimitInv (refill_limits rr) := by
  intro s hs
  rw [refill_limits_full rr s hs]

theorem applyOp_inv (rr : RoundRobin) (h : LimitInv rr) (op : SchedOp) :
    LimitInv (applyOp rr op) := by
  cases op with
  | pick => exact get_next_inv rr h
  | rotate => exact retry_connection_inv rr h
  | refill => exact refill_limits_inv rr

/-- Claim C4: starting from any scheduler satisfying the token invariant
    `current_limit ≤ request_limit` (the lower bound 0 is inherent in the Nat
    model and in the guarded u32 decrement), every sequence of pick, rotate and
    refill operations preserves the invariant, and immediately after a refill
    every counter equals its quota. -/
theorem c4_limit_invariant (rr : RoundRobin) (h : LimitInv rr) (ops : List SchedOp) :
    LimitInv (applyOps rr ops) ∧
      ∀ s ∈ (applyOp (applyOps rr ops) SchedOp.refill).urls,
        s.current_limit = s.request_limit := by
  constructor
  · induction ops generalizing rr with
    | nil => exact h
    | cons op rest ih => exact ih (applyOp rr op) (applyOp_inv rr h op)
  · exact refill_limits_full _

/-- Witness for C4 at a concrete scheduler and operation sequence. -/
theorem c4_limit_invariant_witness :
    LimitInv (applyOps ⟨[⟨"a", 1, 2⟩, ⟨"b", 0, 1⟩], 0⟩
        [SchedOp.pick, SchedOp.rotate, SchedOp.refill, SchedOp.pick]) ∧
      ∀ s ∈ (applyOp (applyOps ⟨[⟨"a", 1, 2⟩, ⟨"b", 0, 1⟩], 0⟩
          [SchedOp.pick, SchedOp.rotate, SchedOp.refill, SchedOp.pick])
          SchedOp.refill).urls, s.current_limit = s.request_limit :=
  c4_limit_invariant ⟨[⟨"a", 1, 2⟩, ⟨"b", 0, 1⟩], 0⟩ (by decide)
    [SchedOp.pick, SchedOp.rotate, SchedOp.refill, SchedOp.pick]

/- Draining lemmas (claim C5). -/

theorem pickN_succ (rr : RoundRobin) (n : Nat) :
    pickN rr (n + 1)
      = ((get_next rr).1 :: (pickN (get_next rr).2 n).1, (pickN (get_next rr).2 n).2) := rfl

theorem pickN_succ_eq (rr rr2 : RoundRobin) (o : Option String) (n : Nat)
    (h : get_next rr = (o, rr2)) :
    pickN rr (n + 1) = (o :: (pickN rr2 n).1, (pickN rr2 n).2) := by
  have h1 : (get_next rr).1 = o := by rw [h]
  have h2 : (get_next rr).2 = rr2 := by rw [h]
  rw [pickN_succ, h1, h2]

theorem pickN_add (m : Nat) :
    ∀ (n : Nat) (rr : RoundRobin),
      pickN rr (m + n)
        = ((pickN rr m).1 ++ (pickN (pickN rr m).2 n).1, (pickN (pickN rr m).2 n).2) := by
  induction m with
  | zero =>
    intro n rr
    simp [pickN]
  | succ m ih =>
    intro n rr
    rw [show m + 1 + n = (m + n) + 1 from by omega]
    rw [pickN_succ rr (m + n), pickN_succ rr m]
    rw [ih n (get_next rr).2]
    dsimp only
    rw [List.cons_append]

theorem get_next_skip (A B : List RpcServer) (u : RpcServer) (i : Nat)
    (hi : i ≤ A.length) (hz : ∀ s ∈ A.drop i, s.current_limit = 0)
    (hpos : 0 < u.current_limit) :
    get_next ⟨A ++ u :: B, i⟩
      = (some u.url,
         ⟨A ++ { u with current_limit := u.current_limit - 1 } :: B, A.length⟩) := by
  have hlenA : A.length < (A ++ u :: B).length := by
    simp
  have hidx : i < (A ++ u :: B).length := by omega
  have hj : A.length - i < (A ++ u :: B).length := by omega
  have hjz : ∀ jp, jp < A.length - i →
      limitAt (A ++ u :: B) ((i + jp) % (A ++ u :: B).length) = 0 := by
    intro jp hjp
    have hlt : i + jp < A.length := by omega
    have hmod : (i + jp) % (A ++ u :: B).length = i + jp :=
      Nat.mod_eq_of_lt (by omega)
    rw [hmod]
    unfold limitAt
    rw [List.getElem?_append_left hlt, ← List.getElem?_drop A i jp]
    cases hsome : (A.drop i)[jp]? with
    | none => rfl
    | some s => exact hz s (List.getElem?_mem hsome)
  have hpose : (i + (A.length - i)) % (A ++ u :: B).length = A.length := by
    rw [show i + (A.length - i) = A.length from by omega]
    exact Nat.mod_eq_of_lt hlenA
  have hget : (A ++ u :: B)[(i + (A.length - i)) % (A ++ u :: B).length]? = some u := by
    rw [hpose]
    exact getElem?_append_cons A B u
  have h := get_next_first_pos (A ++ u :: B) i (A.length - i) u hidx hj hjz hget hpos
  rw [h, hpose, set_append_cons]

theorem pickN_drain_one :
    ∀ (c : Nat) (u : RpcServer) (A B : List RpcServer) (i : Nat),
      u.current_limit = c + 1 → i ≤ A.length →
      (∀ s ∈ A.drop i, s.current_limit = 0) →
      pickN ⟨A ++ u :: B, i⟩ (c + 1)
        = (List.replicate (c + 1) (some u.url),
           ⟨A ++ { u with current_limit := 0 } :: B, A.length⟩) := by
  intro c
  induction c with
  | zero =>
    intro u A B i hu hi hz
    have hupos : 0 < u.current_limit := by omega
    have hskip := get_next_skip A B u i hi hz hupos
    rw [pickN_succ_eq _ _ _ _ hskip, hu]
    simp [pickN]
  | succ c ih =>
    intro u A B i hu hi hz
    have hupos : 0 < u.current_limit := by omega
    have hskip := get_next_skip A B u i hi hz hupos
    rw [pickN_succ_eq _ _ _ _ hskip]
    have ih2 := ih { u with current_limit := u.current_limit - 1 } A B A.length
      (by show u.current_limit - 1 = c + 1; omega) (Nat.le_refl A.length) (by simp)
    rw [ih2]
    dsimp only
    simp [List.replicate_succ]

theorem pickN_drain_all :
    ∀ (us A : List RpcServer) (i k : Nat),
      us ≠ [] → 0 < k → i ≤ A.length →
      (∀ s ∈ A.drop i, s.current_limit = 0) →
      (∀ s ∈ us, s.current_limit = k) →
      pickN ⟨A ++ us, i⟩ (us.length * k)
        = (us.flatMap (fun s => List.replicate k (some s.url)),
           ⟨A ++ us.map (fun s => { s with current_limit := 0 }),
            A.length + (us.length - 1)⟩) := by
  intro us
  induction us with
  | nil =>
    intro A i k h
    cases h rfl
  | cons u us ih =>
    intro A i k hne hk hi hz hlim
    obtain ⟨k0, rfl⟩ : ∃ k0, k = k0 + 1 := ⟨k - 1, by omega⟩
    have hu : u.current_limit = k0 + 1 := hlim u (List.mem_cons_self u us)
    by_cases hus : us = []
    · subst hus
      have h1 := pickN_drain_one k0 u A [] i hu hi hz
      simpa using h1
    · have hlen : (u :: us).length * (k0 + 1) = (k0 + 1) + us.length * (k0 + 1) := by
        simp [List.length_cons]
        ring
      rw [hlen, pickN_add (k0 + 1) (us.length * (k0 + 1)) ⟨A ++ u :: us, i⟩]
      have h1 := pickN_drain_one k0 u A us i hu hi hz
      rw [h1]
      dsimp only
      have hz3 : ∀ s ∈ (A ++ [{ u with current_limit := 0 }]).drop (A.length),
          s.current_limit = 0 := by
        intro s hs
        rw [List.drop_left A [{ u with current_limit := 0 }]] at hs
        have hseq : s = { u with current_limit := 0 } := by simpa using hs
        subst hseq
        rfl
      have ih2 := ih (A ++ [{ u with current_limit := 0 }]) A.length (k0 + 1) hus hk
        (by simp) hz3 (fun s hs => hlim s (List.mem_cons_of_mem u hs))
      rw [show A ++ { u with current_limit := 0 } :: us
          = (A ++ [{ u with current_limit := 0 }]) ++ us from by
        rw [List.append_cons]]
      rw [ih2]
      dsimp only
      have hlus : us.length ≠ 0 := by
        intro h0
        exact hus (List.length_eq_zero.mp h0)
      simp only [List.flatMap_cons, List.map_cons, ← List.append_cons, List.length_append,
        List.length_cons, List.length_nil]
      congr 2
      omega

/-- Claim C5: with N upstreams all holding current_limit = request_limit = k
    (k ≥ 1) and the cursor at 0, N·k successive picks return, in order, each
    upstream's url exactly k times (the result list is the concatenation of k
    copies of each url, upstream by upstream, so every pick returns a url), and
    the following pick returns none. -/
theorem c5_fair_drain (servers : List RpcServer) (k : Nat) (hk : 0 < k)
    (hne : servers ≠ [])
    (hlim : ∀ s ∈ servers, s.current_limit = k)
    (hreq : ∀ s ∈ servers, s.request_limit = k) :
    (pickN ⟨servers, 0⟩ (servers.length * k)).1
        = servers.flatMap (fun s => List.replicate k (some s.url))
      ∧ (get_next (pickN ⟨servers, 0⟩ (servers.length * k)).2).1 = none := by
  have hd := pickN_drain_all servers [] 0 k hne hk (by simp) (by simp) hlim
  simp only [List.nil_append, List.length_nil, Nat.zero_add] at hd
  refine ⟨?_, ?_⟩
  · rw [hd]
  · rw [hd]
    have hzz : ∀ s ∈ servers.map (fun s => { s with current_limit := 0 }),
        s.current_limit = 0 := by
      intro s hs
      obtain ⟨t, _, rfl⟩ := List.mem_map.mp hs
      rfl
    have hnem : servers.map (fun s => { s with current_limit := 0 }) ≠ [] := by
      intro h
      exact hne (List.map_eq_nil_iff.mp h)
    rw [get_next_all_zero _ _ hnem hzz]

/-- Witness for C5 with two upstreams and quota 2: the four picks return
    a, a, b, b and the fifth returns none. -/
theorem c5_fair_drain_witness :
    (pickN ⟨[⟨"a", 2, 2⟩, ⟨"b", 2, 2⟩], 0⟩ 4).1
        = [some "a", some "a", some "b", some "b"]
      ∧ (get_next (pickN ⟨[⟨"a", 2, 2⟩, ⟨"b", 2, 2⟩], 0⟩ 4).2).1 = none := by
  have h := c5_fair_drain [⟨"a", 2, 2⟩, ⟨"b", 2, 2⟩] 2 (by decide) (by decide)
    (by decide) (by decide)
  exact ⟨h.1.trans (by decide), h.2⟩

/- Retry controller lemmas (claims C3, C6, C8, C9). -/

theorem retryLoop_attempts_le (net : Nat → String → Option UpstreamResponse)
    (maxr : Nat) :
    ∀ (fuel retries : Nat) (rr : RoundRobin),
      (retryLoop net maxr fuel retries rr).attempts ≤ fuel := by
  intro fuel
  induction fuel with
  | zero =>
    intro retries rr
    exact Nat.le_refl 0
  | succ fuel ih =>
    intro retries rr
    cases h : attemptOutcome net retries (get_next rr).1 with
    | some res =>
      simp only [retryLoop, h]
      omega
    | none =>
      simp only [retryLoop, h]
      have := ih (retries + 1) (retry_connection (get_next rr).2).2
      omega

theorem retryLoop_attempts_pos (net : Nat → String → Option UpstreamResponse)
    (maxr : Nat) (fuel retries : Nat) (rr : RoundRobin) :
    0 < (retryLoop net maxr (fuel + 1) retries rr).attempts := by
  cases h : attemptOutcome net retries (get_next rr).1 with
  | some res =>
    simp only [retryLoop, h]
    omega
  | none =>
    simp only [retryLoop, h]
    omega

theorem retryLoop_sleeps (net : Nat → String → Option UpstreamResponse) (maxr : Nat) :
    ∀ (fuel retries : Nat) (rr : RoundRobin), retries + fuel = maxr →
      (retryLoop net maxr fuel retries rr).sleeps
        = (List.range ((retryLoop net maxr fuel retries rr).attempts - 1)).map
            (fun n => base_delay * 2 ^ (retries + n + 1)) := by
  intro fuel
  induction fuel with
  | zero =>
    intro retries rr hsum
    simp [retryLoop]
  | succ fuel ih =>
    intro retries rr hsum
    cases h : attemptOutcome net retries (get_next rr).1 with
    | some res =>
      simp only [retryLoop, h]
      simp
    | none =>
      simp only [retryLoop, h]
      cases fuel with
      | zero =>
        have hguard : ¬ (retries + 1 < maxr) := by omega
        simp only [retryLoop, if_neg hguard]
        simp
      | succ fuel2 =>
        have hguard : retries + 1 < maxr := by omega
        simp only [if_pos hguard]
        have hrest := ih (retries + 1) (retry_connection (get_next rr).2).2 (by omega)
        have hpos := retryLoop_attempts_pos net maxr fuel2 (retries + 1)
          (retry_connection (get_next rr).2).2
        obtain ⟨m, hm⟩ : ∃ m,
            (retryLoop net maxr (fuel2 + 1) (retries + 1)
              (retry_connection (get_next rr).2).2).attempts = m + 1 := by
          refine ⟨(retryLoop net maxr (fuel2 + 1) (retries + 1)
            (retry_connection (get_next rr).2).2).attempts - 1, by omega⟩
        rw [hrest, hm]
        rw [show m + 1 + 1 - 1 = m + 1 from by omega]
        rw [show m + 1 - 1 = m from by omega]
        rw [List.range_succ_eq_map]
        simp only [List.map_cons, List.map_map]
        congr 1
        apply List.map_congr_left
        intro a _
        simp only [Function.comp]
        congr 2
        omega

theorem retryLoop_response_some (net : Nat → String → Option UpstreamResponse)
    (maxr : Nat) :
    ∀ (fuel retries : Nat) (rr : RoundRobin) (resp : UpstreamResponse),
      (retryLoop net maxr fuel retries rr).response = some resp →
      is_success resp.status = true ∧ ∃ n u, net n u = some resp := by
  intro fuel
  induction fuel with
  | zero =>
    intro retries rr resp h
    simp [retryLoop] at h
  | succ fuel ih =>
    intro retries rr resp h
    cases ho : attemptOutcome net retries (get_next rr).1 with
    | some res =>
      simp only [retryLoop, ho] at h
      have hres : res = resp := by
        simpa using h
      subst hres
      unfold attemptOutcome at ho
      cases huri : (get_next rr).1 with
      | none =>
        simp only [huri] at ho
        cases ho
      | some u =>
        simp only [huri] at ho
        cases hnet : net retries u with
        | none =>
          simp only [hnet] at ho
          cases ho
        | some r0 =>
          simp only [hnet] at ho
          by_cases hsucc : is_success r0.status = true
          · rw [if_pos hsucc] at ho
            have hr0 : r0 = res := by simpa using ho
            subst hr0
            exact ⟨hsucc, retries, u, hnet⟩
          · rw [if_neg hsucc] at ho
            cases ho
    | none =>
      simp only [retryLoop, ho] at h
      exact ih (retries + 1) (retry_connection (get_next rr).2).2 resp h

/-- Counterexample to C3 as stated: with four configured upstreams (as in the
    repository's own retry test) and every forward failing, the controller
    performs four attempts, exceeding the claimed bound MAX_RETRIES = 3. -/
theorem c3_counterexample :
    (retry_with_backoff (fun _ _ => none)
        ⟨[⟨"a", 1, 1⟩, ⟨"b", 1, 1⟩, ⟨"c", 1, 1⟩, ⟨"d", 1, 1⟩], 0⟩).attempts = 4
      ∧ ¬ ((retry_with_backoff (fun _ _ => none)
        ⟨[⟨"a", 1, 1⟩, ⟨"b", 1, 1⟩, ⟨"c", 1, 1⟩, ⟨"d", 1, 1⟩], 0⟩).attempts ≤ 3) := by
  constructor
  · rfl
  · decide

/-- Claim C3 (amended): the retry budget is the number of upstreams, not the
    constant 3: `retry_with_backoff` performs at most `len(upstreams)`
    pick-and-forward attempts, and when no attempt transport-succeeds with a
    2xx status it terminates returning no response. -/
theorem c3_retry_budget (net : Nat → String → Option UpstreamResponse)
    (rr : RoundRobin) :
    (retry_with_backoff net rr).attempts ≤ rr.urls.length
      ∧ ((∀ n u r, net n u = some r → is_success r.status = false) →
          (retry_with_backoff net rr).response = none) := by
  constructor
  · exact retryLoop_attempts_le net rr.urls.length rr.urls.length 0 rr
  · intro hfail
    cases hresp : (retry_with_backoff net rr).response with
    | none => rfl
    | some resp =>
      have h := retryLoop_response_some net rr.urls.length rr.urls.length 0 rr resp hresp
      obtain ⟨hsucc, n, u, hnet⟩ := h
      have := hfail n u resp hnet
      rw [hsucc] at this
      cases this

/-- Witness for C3 (amended) on a one-upstream scheduler where the transport
    always fails. -/
theorem c3_retry_budget_witness :
    (retry_with_backoff (fun _ _ => none) ⟨[⟨"a", 1, 1⟩], 0⟩).attempts ≤ 1
      ∧ (retry_with_backoff (fun _ _ => none) ⟨[⟨"a", 1, 1⟩], 0⟩).response = none := by
  refine ⟨(c3_retry_budget (fun _ _ => none) ⟨[⟨"a", 1, 1⟩], 0⟩).1, ?_⟩
  exact (c3_retry_budget (fun _ _ => none) ⟨[⟨"a", 1, 1⟩], 0⟩).2
    (fun n u r h => by cases h)

/-- Claim C6: the backoff schedule. The sleeps recorded by the controller are
    exactly one per failed non-final attempt, in order, and the sleep that
    follows the failed attempt with zero-based index n lasts
    base_delay * 2 ^ (n + 1) ms with base_delay = 100 (200 ms, 400 ms, ...);
    the list has length attempts - 1, so no sleep follows the final attempt. -/
theorem c6_backoff_schedule (net : Nat → String → Option UpstreamResponse)
    (rr : RoundRobin) :
    (retry_with_backoff net rr).sleeps
      = (List.range ((retry_with_backoff net rr).attempts - 1)).map
          (fun n => base_delay * 2 ^ (n + 1)) := by
  have h := retryLoop_sleeps net rr.urls.length rr.urls.length 0 rr (by omega)
  rw [show (retry_with_backoff net rr)
      = retryLoop net rr.urls.length rr.urls.length 0 rr from rfl]
  rw [h]
  apply List.map_congr_left
  intro a _
  rw [Nat.zero_add]

theorem get_next_all_zero_parts (rr : RoundRobin)
    (hz : ∀ s ∈ rr.urls, s.current_limit = 0) :
    (get_next rr).1 = none ∧ (get_next rr).2.urls = rr.urls := by
  obtain ⟨urls, idx⟩ := rr
  by_cases hne : urls = []
  · subst hne
    exact ⟨rfl, rfl⟩
  · rw [get_next_all_zero urls idx hne hz]
    exact ⟨rfl, rfl⟩

theorem retry_connection_all_zero_parts (rr : RoundRobin)
    (hz : ∀ s ∈ rr.urls, s.current_limit = 0) :
    (retry_connection rr).1 = none ∧ (retry_connection rr).2.urls = rr.urls := by
  obtain ⟨urls, idx⟩ := rr
  exact get_next_all_zero_parts ⟨urls, (idx + 1) % urls.length⟩ hz

theorem retryLoop_all_zero (net : Nat → String → Option UpstreamResponse) (maxr : Nat) :
    ∀ (fuel retries : Nat) (rr : RoundRobin),
      (∀ s ∈ rr.urls, s.current_limit = 0) →
      (retryLoop net maxr fuel retries rr).response = none ∧
        (retryLoop net maxr fuel retries rr).attempts = fuel ∧
        (retryLoop net maxr fuel retries rr).forwards = 0 := by
  intro fuel
  induction fuel with
  | zero =>
    intro retries rr hz
    exact ⟨rfl, rfl, rfl⟩
  | succ fuel ih =>
    intro retries rr hz
    have hpick := get_next_all_zero_parts rr hz
    have ho : attemptOutcome net retries (get_next rr).1 = none := by
      rw [hpick.1]
      rfl
    simp only [retryLoop, ho]
    have hz1 : ∀ s ∈ (get_next rr).2.urls, s.current_limit = 0 := by
      rw [hpick.2]
      exact hz
    have hrot := retry_connection_all_zero_parts (get_next rr).2 hz1
    have hz2 : ∀ s ∈ (retry_connection (get_next rr).2).2.urls, s.current_limit = 0 := by
      rw [hrot.2]
      exact hz1
    have hrec := ih (retries + 1) (retry_connection (get_next rr).2).2 hz2
    have hsent : sentCount (get_next rr).1 = 0 := by
      rw [hpick.1]
      rfl
    refine ⟨hrec.1, ?_, ?_⟩
    · rw [hrec.2.1]
    · rw [hrec.2.2, hsent]

/-- Claim C7: an inbound request whose chain is not registered is answered
    400 Bad Request with body "Invalid chain: <name>" and Content-Type
    application/json, with the registry unchanged, no outbound request issued
    and no sleep performed. -/
theorem c7_unknown_chain (chains : List (String × RoundRobin)) (chain : String)
    (body_bytes : Option String) (net : Nat → String → Option UpstreamResponse)
    (h : List.lookup chain chains = none) :
    load_balancer chains chain body_bytes net
      = ⟨⟨400, "application/json", "Invalid chain: " ++ chain⟩, chains, 0, []⟩ := by
  simp only [load_balancer, h]

/-- Witness for C7: requesting the unknown chain polygon against a registry
    holding only eth. -/
theorem c7_unknown_chain_witness :
    load_balancer [("eth", ⟨[⟨"a", 1, 1⟩], 0⟩)] "polygon" (some "x") (fun _ _ => none)
      = ⟨⟨400, "application/json", "Invalid chain: polygon"⟩,
         [("eth", ⟨[⟨"a", 1, 1⟩], 0⟩)], 0, []⟩ := by
  have h := c7_unknown_chain [("eth", ⟨[⟨"a", 1, 1⟩], 0⟩)] "polygon" (some "x")
    (fun _ _ => none) (by decide)
  exact h.trans (by decide)

/-- Counterexample to C8 as stated: with a registered chain whose two upstreams
    are exhausted, the handler does answer 503, but the body is the source's
    literal "No Avaialble RPC Urls", not "No available RPC URLs", and only
    len(upstreams) - 1 = 1 backoff sleeps happen, not MAX_RETRIES = 3. -/
theorem c8_counterexample :
    (load_balancer [("eth", ⟨[⟨"a", 0, 1⟩, ⟨"b", 0, 1⟩], 0⟩)] "eth" (some "x")
        (fun _ _ => none)).response.status = 503
      ∧ (load_balancer [("eth", ⟨[⟨"a", 0, 1⟩, ⟨"b", 0, 1⟩], 0⟩)] "eth" (some "x")
          (fun _ _ => none)).response.body ≠ "No available RPC URLs"
      ∧ (load_balancer [("eth", ⟨[⟨"a", 0, 1⟩, ⟨"b", 0, 1⟩], 0⟩)] "eth" (some "x")
          (fun _ _ => none)).sleeps.length ≠ 3 := by
  refine ⟨rfl, ?_, ?_⟩
  · decide
  · decide

/-- Claim C8 (amended): when the chain is registered and the body was read,
    whenever the Retry Controller returns no response — every attempt failed,
    whether because picks returned none or because transports or statuses
    failed — the handler responds 503 with the source's literal body
    "No Avaialble RPC Urls" and Content-Type application/json; and in the
    all-upstreams-exhausted scenario (every counter zero) the controller does
    return no response, after len(upstreams) - 1 backoff sleeps (the retry
    budget is len(upstreams) and no sleep follows the final attempt). -/
theorem c8_exhausted_503 (chains : List (String × RoundRobin)) (chain : String)
    (rr : RoundRobin) (body_bytes : String)
    (net : Nat → String → Option UpstreamResponse)
    (hrr : List.lookup chain chains = some rr) :
    ((retry_with_backoff net rr).response = none →
        (load_balancer chains chain (some body_bytes) net).response
          = ⟨503, "application/json", "No Avaialble RPC Urls"⟩)
      ∧ ((∀ s ∈ rr.urls, s.current_limit = 0) →
          (retry_with_backoff net rr).response = none
            ∧ (load_balancer chains chain (some body_bytes) net).sleeps.length
              = rr.urls.length - 1) := by
  constructor
  · intro hresp
    simp only [load_balancer, hrr, hresp]
  · intro hz
    have hall := retryLoop_all_zero net rr.urls.length rr.urls.length 0 rr hz
    have hresp : (retry_with_backoff net rr).response = none := hall.1
    have hatt : (retry_with_backoff net rr).attempts = rr.urls.length := hall.2.1
    have hs := retryLoop_sleeps net rr.urls.length rr.urls.length 0 rr (by omega)
    have hslen : (retry_with_backoff net rr).sleeps.length = rr.urls.length - 1 := by
      show (retryLoop net rr.urls.length rr.urls.length 0 rr).sleeps.length = _
      rw [hs, List.length_map, List.length_range]
      rw [show (retryLoop net rr.urls.length rr.urls.length 0 rr).attempts
          = rr.urls.length from hatt]
    refine ⟨hresp, ?_⟩
    simp only [load_balancer, hrr, hresp]
    exact hslen

/-- Witness for C8 (amended), at two concrete inputs: a one-upstream registry
    whose pick succeeds but whose transport always fails (the controller comes
    back empty and the handler emits the literal 503 body), and the
    two-exhausted-upstreams registry (no response after exactly one sleep). -/
theorem c8_exhausted_503_witness :
    (load_balancer [("eth", ⟨[⟨"a", 1, 1⟩], 0⟩)] "eth" (some "x")
        (fun _ _ => none)).response
        = ⟨503, "application/json", "No Avaialble RPC Urls"⟩
      ∧ (retry_with_backoff (fun _ _ => none)
          (⟨[⟨"a", 0, 1⟩, ⟨"b", 0, 1⟩], 0⟩ : RoundRobin)).response = none
      ∧ (load_balancer [("eth", ⟨[⟨"a", 0, 1⟩, ⟨"b", 0, 1⟩], 0⟩)] "eth" (some "x")
          (fun _ _ => none)).sleeps.length = 1 := by
  refine ⟨?_, ?_⟩
  · exact (c8_exhausted_503 [("eth", ⟨[⟨"a", 1, 1⟩], 0⟩)] "eth"
      ⟨[⟨"a", 1, 1⟩], 0⟩ "x" (fun _ _ => none) (by decide)).1 (by decide)
  · exact (c8_exhausted_503 [("eth", ⟨[⟨"a", 0, 1⟩, ⟨"b", 0, 1⟩], 0⟩)] "eth"
      ⟨[⟨"a", 0, 1⟩, ⟨"b", 0, 1⟩], 0⟩ "x" (fun _ _ => none) (by decide)).2 (by decide)

/-- Counterexample to C9 as stated: one upstream with one token; the single
    forwarding attempt is issued (forwards = 1) and transport-succeeds, since
    the oracle answers every request, with the upstream's own status 500; yet
    the user receives the synthetic 503 with the handler's body, not that
    upstream response with its status preserved. -/
theorem c9_counterexample :
    (load_balancer [("eth", ⟨[⟨"a", 1, 1⟩], 0⟩)] "eth" (some "x")
        (fun _ _ => some ⟨500, "boom"⟩)).forwards = 1
      ∧ (load_balancer [("eth", ⟨[⟨"a", 1, 1⟩], 0⟩)] "eth" (some "x")
          (fun _ _ => some ⟨500, "boom"⟩)).response
        = ⟨503, "application/json", "No Avaialble RPC Urls"⟩ :=
  ⟨rfl, rfl⟩

/-- Claim C9 (amended): the response handed to the user on the success path is
    always one of the upstreams' own transport-successful responses, it always
    has a 2xx status, and its status code and body are preserved verbatim; a
    transport-succeeded attempt with a non-2xx status is treated as a failed
    attempt and is never returned. -/
theorem c9_success_passthrough (chains : List (String × RoundRobin)) (chain : String)
    (rr : RoundRobin) (body_bytes : String)
    (net : Nat → String → Option UpstreamResponse) (resp : UpstreamResponse)
    (hrr : List.lookup chain chains = some rr)
    (hresp : (retry_with_backoff net rr).response = some resp) :
    is_success resp.status = true
      ∧ (∃ n u, net n u = some resp)
      ∧ (load_balancer chains chain (some body_bytes) net).response
          = ⟨resp.status, "application/json", resp.body⟩ := by
  have h := retryLoop_response_some net rr.urls.length rr.urls.length 0 rr resp hresp
  refine ⟨h.1, h.2, ?_⟩
  simp only [load_balancer, hrr, hresp]

/-- Witness for C9 (amended): a 200 upstream response is passed through with
    status and body intact. -/
theorem c9_success_passthrough_witness :
    is_success 200 = true
      ∧ (load_balancer [("eth", ⟨[⟨"a", 1, 1⟩], 0⟩)] "eth" (some "x")
          (fun _ _ => some ⟨200, "ok"⟩)).response = ⟨200, "application/json", "ok"⟩ := by
  have h := c9_success_passthrough [("eth", ⟨[⟨"a", 1, 1⟩], 0⟩)] "eth"
    ⟨[⟨"a", 1, 1⟩], 0⟩ "x" (fun _ _ => some ⟨200, "ok"⟩) ⟨200, "ok"⟩
    (by decide) (by decide)
  exact ⟨h.1, h.2.2⟩

/-- Evaluation of `retry_connection` at the failing input for claim C2: on a
    scheduler with two one-token upstreams and cursor 0, the rotate stores
    cursor 1 but then, through the `get_next` call embedded in
    `retry_connection` (whose returned url the only caller discards), consumes
    upstream b's token: b's current_limit drops from 1 to 0, so the upstream
    counters do not stay unchanged. -/
theorem c2_rotate_consumes_token :
    retry_connection ⟨[⟨"a", 1, 1⟩, ⟨"b", 1, 1⟩], 0⟩
        = (some "b", ⟨[⟨"a", 1, 1⟩, ⟨"b", 0, 1⟩], 1⟩)
      ∧ (retry_connection ⟨[⟨"a", 1, 1⟩, ⟨"b", 1, 1⟩], 0⟩).2.urls
          ≠ [⟨"a", 1, 1⟩, ⟨"b", 1, 1⟩] := by
  exact ⟨rfl, by decide⟩
